import Mathlib

/-
  Verification development for the chess rule engine in src/ChessGame/Main.cpp.
  The C++ classes are embedded shallowly: pieces become a tagged record, the
  8x8 grid of owning pointers becomes a row-major list of 64 optional pieces,
  and the mutating member functions become pure functions that thread the
  board state explicitly.  Source line numbers refer to Main.cpp.
-/

set_option maxRecDepth 40000
set_option maxHeartbeats 1000000

namespace Chess

/-- Piece kinds (enum PieceType, Main.cpp lines 12-20).  The None tag of the
source enum is never carried by a constructed piece (only the six concrete
subclasses of Piece exist), so it is omitted from the embedding. -/
inductive PieceType where
  | rook
  | knight
  | bishop
  | queen
  | king
  | pawn
  deriving DecidableEq, Repr

/-- Piece and winner colors (enum PieceColor, Main.cpp lines 22-26), including
the None value used for the winner field of Board. -/
inductive PieceColor where
  | none
  | black
  | white
  deriving DecidableEq, Repr

/-- A piece: the data carried by class Piece (Main.cpp lines 49-76), namely its
type tag, color, current board position and the hasMoved flag.  Positions are
pairs of integers as in struct Vector2Int. -/
structure Piece where
  type : PieceType
  color : PieceColor
  pos : Int × Int
  hasMoved : Bool
  deriving DecidableEq, Repr

/-- The 8x8 grid of optional pieces (field Board::squares), stored row-major:
square (x, y) of the source lives at list index y * 8 + x. -/
abbrev Squares := List (Option Piece)

/-- Piece::InBounds (Main.cpp lines 63-65). -/
def InBounds (x y : Int) : Prop :=
  0 ≤ x ∧ x < 8 ∧ 0 ≤ y ∧ y < 8

instance (x y : Int) : Decidable (InBounds x y) := by
  unfold InBounds; infer_instance

/-- Row-major index of square (x, y). -/
def sqIdx (x y : Int) : Nat :=
  (y * 8 + x).toNat

/-- Read of squares[y][x].  Out-of-bounds reads yield none; the source only
indexes the grid after an InBounds test. -/
def getSq (sq : Squares) (x y : Int) : Option Piece :=
  if InBounds x y then sq.getD (sqIdx x y) none else none

/-- Write of squares[y][x].  Out-of-bounds writes are the identity; the source
only writes the grid after an InBounds test. -/
def setSq (sq : Squares) (x y : Int) (p : Option Piece) : Squares :=
  if InBounds x y then sq.set (sqIdx x y) p else sq

/-- All 64 board coordinates (x, y) in the scan order of the source:
outer loop over y, inner loop over x. -/
def allCoords : List (Int × Int) :=
  (List.range 8).flatMap fun (y : Nat) =>
    (List.range 8).map fun (x : Nat) => ((x : Int), (y : Int))

/-- One ray of a sliding piece (the inner step loop of Rook, Bishop and Queen
GetValidMoves, Main.cpp lines 86-98): walk from (x, y) in direction (dx, dy),
adding empty squares, stopping at the edge or at the first occupied square,
which is added exactly when it holds the other color.  The fuel argument
mirrors the step bound (step ranges over 1..7). -/
def ray (sq : Squares) (c : PieceColor) (x y dx dy : Int) : Nat → List (Int × Int)
  | 0 => []
  | fuel + 1 =>
    if InBounds (x + dx) (y + dy) then
      match getSq sq (x + dx) (y + dy) with
      | none => (x + dx, y + dy) :: ray sq c (x + dx) (y + dy) dx dy fuel
      | some q => if q.color ≠ c then [(x + dx, y + dy)] else []
    else []

/-- Rook directions (Main.cpp line 84). -/
def rookDirs : List (Int × Int) := [(1, 0), (-1, 0), (0, 1), (0, -1)]

/-- Bishop directions (Main.cpp line 139). -/
def bishopDirs : List (Int × Int) := [(1, 1), (1, -1), (-1, 1), (-1, -1)]

/-- Queen directions (Main.cpp lines 169-172): union of rook and bishop. -/
def queenDirs : List (Int × Int) :=
  [(1, 0), (-1, 0), (0, 1), (0, -1), (1, 1), (1, -1), (-1, 1), (-1, -1)]

/-- Knight jump offsets (Main.cpp lines 113-116). -/
def knightJumps : List (Int × Int) :=
  [(1, 2), (2, 1), (-1, 2), (-2, 1), (1, -2), (2, -1), (-1, -2), (-2, -1)]

/-- King offsets in the order produced by the double loop over dx and dy with
(0, 0) skipped (Main.cpp lines 202-204). -/
def kingOffsets : List (Int × Int) :=
  [(-1, -1), (-1, 0), (-1, 1), (0, -1), (0, 1), (1, -1), (1, 0), (1, 1)]

/-- Moves of a sliding piece: concatenation of the rays of all directions
(Rook lines 82-101, Bishop lines 137-156, Queen lines 167-189). -/
def slideMoves (sq : Squares) (c : PieceColor) (pos : Int × Int)
    (dirs : List (Int × Int)) : List (Int × Int) :=
  dirs.flatMap fun d => ray sq c pos.1 pos.2 d.1 d.2 7

/-- Moves of a stepping piece (Knight lines 111-126, King lines 200-215): each
offset is kept when in bounds and the target is empty or the other color. -/
def stepMoves (sq : Squares) (c : PieceColor) (pos : Int × Int)
    (offs : List (Int × Int)) : List (Int × Int) :=
  offs.filterMap fun o =>
    if InBounds (pos.1 + o.1) (pos.2 + o.2) then
      match getSq sq (pos.1 + o.1) (pos.2 + o.2) with
      | none => some (pos.1 + o.1, pos.2 + o.2)
      | some q => if q.color ≠ c then some (pos.1 + o.1, pos.2 + o.2) else none
    else none

/-- Pawn::GetValidMoves (Main.cpp lines 226-252): single forward step onto an
empty in-bounds square, double step from the start row when the further square
is also empty and in bounds, and the two diagonal captures onto squares that
hold the other color. -/
def pawnMoves (sq : Squares) (p : Piece) : List (Int × Int) :=
  (if InBounds p.pos.1 (p.pos.2 + (if p.color = PieceColor.white then -1 else 1)) ∧
      getSq sq p.pos.1 (p.pos.2 + (if p.color = PieceColor.white then -1 else 1)) = none then
    (p.pos.1, p.pos.2 + (if p.color = PieceColor.white then -1 else 1)) ::
      (if p.pos.2 = (if p.color = PieceColor.white then 6 else 1) ∧
          InBounds p.pos.1 (p.pos.2 + 2 * (if p.color = PieceColor.white then -1 else 1)) ∧
          getSq sq p.pos.1 (p.pos.2 + 2 * (if p.color = PieceColor.white then -1 else 1)) = none then
        [(p.pos.1, p.pos.2 + 2 * (if p.color = PieceColor.white then -1 else 1))]
      else [])
  else []) ++
  ([(-1 : Int), 1].filterMap fun dx =>
    if InBounds (p.pos.1 + dx) (p.pos.2 + (if p.color = PieceColor.white then -1 else 1)) then
      match getSq sq (p.pos.1 + dx) (p.pos.2 + (if p.color = PieceColor.white then -1 else 1)) with
      | some q =>
        if q.color ≠ p.color then
          some (p.pos.1 + dx, p.pos.2 + (if p.color = PieceColor.white then -1 else 1))
        else none
      | none => none
    else none)

/-- Piece::GetValidMoves dispatch over the six concrete piece classes. -/
def Piece.GetValidMoves (p : Piece) (sq : Squares) : List (Int × Int) :=
  match p.type with
  | PieceType.rook => slideMoves sq p.color p.pos rookDirs
  | PieceType.knight => stepMoves sq p.color p.pos knightJumps
  | PieceType.bishop => slideMoves sq p.color p.pos bishopDirs
  | PieceType.queen => slideMoves sq p.color p.pos queenDirs
  | PieceType.king => stepMoves sq p.color p.pos kingOffsets
  | PieceType.pawn => pawnMoves sq p

/-- Piece::IsPromotion: false for every class except Pawn (Main.cpp line 73),
where it tests a White pawn on rank 0 or a Black pawn on rank 7 (lines
254-257). -/
def Piece.IsPromotion (p : Piece) : Bool :=
  match p.type with
  | PieceType.pawn =>
    decide (p.color = PieceColor.white ∧ p.pos.2 = 0) ||
      decide (p.color = PieceColor.black ∧ p.pos.2 = 7)
  | _ => false

/-- PieceFactory::CreatePiece (Main.cpp lines 264-284): a freshly constructed
piece has hasMoved set to false by the Piece constructor (line 57). -/
def PieceFactory.CreatePiece (t : PieceType) (c : PieceColor) (pos : Int × Int) : Piece :=
  { type := t, color := c, pos := pos, hasMoved := false }

/-- Board::FindKing (Main.cpp lines 385-395): scan the grid in y-then-x order
for the first king of the color, returning the sentinel (-1, -1) if absent. -/
def findKingSq (sq : Squares) (c : PieceColor) : Int × Int :=
  match allCoords.find? (fun xy =>
    match getSq sq xy.1 xy.2 with
    | some p => decide (p.type = PieceType.king) && decide (p.color = c)
    | none => false) with
  | some xy => xy
  | none => (-1, -1)

/-- Board::IsInCheck (Main.cpp lines 397-415), as a function of the grid alone
(the member function only reads squares): true when some piece of another
color has the king square among its valid moves; false when the king is
absent (the sentinel test on line 399). -/
def IsInCheckSq (sq : Squares) (c : PieceColor) : Bool :=
  if (findKingSq sq c).1 = -1 then false
  else allCoords.any fun xy =>
    match getSq sq xy.1 xy.2 with
    | some p =>
      decide (p.color ≠ c) &&
        (p.GetValidMoves sq).any fun m => decide (m = findKingSq sq c)
    | none => false

/-- The in-place simulation step of Board::HasLegalMoves (Main.cpp lines
424-428): the piece p standing on (x, y) is relocated to m (its stored
position updated) and its source square is cleared. -/
def simMove (sq : Squares) (x y : Int) (p : Piece) (m : Int × Int) : Squares :=
  setSq (setSq sq m.1 m.2 (some { p with pos := m })) x y none

/-- The unconditional restore step of Board::HasLegalMoves (Main.cpp lines
434-436): move the piece back from m to (x, y), reset its stored position,
and put the original target back on m.  The none branch mirrors the source
moving an empty slot back (unreachable when a piece stands on (x, y)). -/
def restoreMove (sq : Squares) (x y : Int) (p : Piece) (m : Int × Int) : Squares :=
  setSq
    (match getSq (simMove sq x y p m) m.1 m.2 with
     | some q => setSq (simMove sq x y p m) x y (some { q with pos := p.pos })
     | none => setSq (simMove sq x y p m) x y none)
    m.1 m.2 (getSq sq m.1 m.2)

/-- The inner move loop of Board::HasLegalMoves (Main.cpp lines 422-441) for
the piece standing on (x, y): simulate each candidate move, test check,
restore, and stop with true at the first candidate that does not leave the
color in check.  The board is threaded explicitly; the none branch of the
piece lookup is unreachable at call sites. -/
def tryMoves (c : PieceColor) (x y : Int) : Squares → List (Int × Int) → Bool × Squares
  | sq, [] => (false, sq)
  | sq, m :: rest =>
    match getSq sq x y with
    | none => (false, sq)
    | some p =>
      if IsInCheckSq (simMove sq x y p m) c then
        tryMoves c x y (restoreMove sq x y p m) rest
      else
        (true, restoreMove sq x y p m)

/-- The outer square scan of Board::HasLegalMoves (Main.cpp lines 418-445):
for each square holding a piece of the color, run the move loop; stop at the
first legal move. -/
def legalScan (c : PieceColor) : Squares → List (Int × Int) → Bool × Squares
  | sq, [] => (false, sq)
  | sq, xy :: rest =>
    match getSq sq xy.1 xy.2 with
    | some p =>
      if p.color = c then
        match tryMoves c xy.1 xy.2 sq (p.GetValidMoves sq) with
        | (true, sq2) => (true, sq2)
        | (false, sq2) => legalScan c sq2 rest
      else legalScan c sq rest
    | none => legalScan c sq rest

/-- The move record captured for undo (class Board::MoveCommand, Main.cpp
lines 297-314): source and destination squares, a pre-move clone of the moved
piece, a clone of the captured piece if any, the pre-move hasMoved flag,
whether promotion occurred, and the pre-move turn. -/
structure MoveCommand where
  fromSq : Int × Int
  toSq : Int × Int
  movedPiece : Piece
  capturedPiece : Option Piece
  wasMoved : Bool
  promotionOccurred : Bool
  previousTurn : PieceColor
  deriving DecidableEq, Repr

/-- Board::MoveResult (Main.cpp lines 288-294). -/
inductive MoveResult where
  | Invalid
  | Success
  | Check
  | Checkmate
  | Stalemate
  deriving DecidableEq, Repr

/-- The Board state (Main.cpp lines 339-343): the grid, the side to move, the
game-over flag, the winner (PieceColor::None when no winner), and the history
stack of move records (top of the stack at the head of the list).  Only
MoveCommand records are ever pushed, so the history holds them directly. -/
structure Board where
  squares : Squares
  currentTurn : PieceColor
  gameOver : Bool
  winner : PieceColor
  history : List MoveCommand
  deriving DecidableEq, Repr

/-- The turn flip expression of Main.cpp line 502 (also the winner expression
of line 517). -/
def flipColor (c : PieceColor) : PieceColor :=
  if c = PieceColor.white then PieceColor.black else PieceColor.white

/-- Board::HasLegalMoves as a member function: returns the boolean and the
board as left behind by the scan (the source mutates squares in place and
restores them; the theorems below prove the restoration). -/
def Board.HasLegalMoves (b : Board) (c : PieceColor) : Bool × Board :=
  ((legalScan c b.squares allCoords).1,
    { b with squares := (legalScan c b.squares allCoords).2 })

/-- Board::HandlePromotion (Main.cpp lines 544-546): replace the piece on pos
with a fresh Queen of the same color.  The source dereferences the square
unconditionally; it is always occupied at the call site (Main.cpp line 489
runs after the moved piece was placed on pos), so the none branch is
unreachable there. -/
def HandlePromotion (sq : Squares) (pos : Int × Int) : Squares :=
  match getSq sq pos.1 pos.2 with
  | some p => setSq sq pos.1 pos.2 (some (PieceFactory.CreatePiece PieceType.queen p.color pos))
  | none => sq

/-- The board mutation of Board::MovePiece lines 477-490: place the moved
piece (position updated to the target, hasMoved set) on the target square,
clear the source square, then apply promotion when the relocated piece
reports IsPromotion. -/
def applyBoard (sq : Squares) (f t : Int × Int) (piece : Piece) : Squares :=
  if Piece.IsPromotion { piece with pos := t, hasMoved := true } then
    HandlePromotion (setSq (setSq sq t.1 t.2 (some { piece with pos := t, hasMoved := true })) f.1 f.2 none) t
  else
    setSq (setSq sq t.1 t.2 (some { piece with pos := t, hasMoved := true })) f.1 f.2 none

/-- The illegal-after-the-fact revert of Board::MovePiece lines 493-498: move
whatever stands on the target square back to the source square, reset its
stored position to the pre-move position, and put the original target
occupant back.  Note that neither the hasMoved flag nor a promotion
replacement is reverted, exactly as in the source. -/
def revertBoard (sq3 : Squares) (f t : Int × Int) (originalPos : Int × Int)
    (originalTarget : Option Piece) : Squares :=
  setSq
    (match getSq sq3 t.1 t.2 with
     | some q => setSq sq3 f.1 f.2 (some { q with pos := originalPos })
     | none => setSq sq3 f.1 f.2 none)
    t.1 t.2 originalTarget

/-- The classification tail of Board::MovePiece (lines 512-529), run on the
board after the commit assignments (turn already flipped, record pushed):
compute check and legal-move status of the new side to move and classify. -/
def Board.MovePieceCommit (b : Board) : MoveResult × Board :=
  if IsInCheckSq b.squares b.currentTurn && !(b.HasLegalMoves b.currentTurn).1 then
    (MoveResult.Checkmate,
      { (b.HasLegalMoves b.currentTurn).2 with gameOver := true, winner := flipColor b.currentTurn })
  else if !(IsInCheckSq b.squares b.currentTurn) && !(b.HasLegalMoves b.currentTurn).1 then
    (MoveResult.Stalemate,
      { (b.HasLegalMoves b.currentTurn).2 with gameOver := true, winner := PieceColor.none })
  else if IsInCheckSq b.squares b.currentTurn then
    (MoveResult.Check, (b.HasLegalMoves b.currentTurn).2)
  else
    (MoveResult.Success, (b.HasLegalMoves b.currentTurn).2)

/-- The apply / self-check-test / revert-or-commit part of Board::MovePiece
(lines 468-529), entered once the guards passed for the piece standing on the
source square: apply the move (with promotion), and either revert and return
Invalid when the mover is now in check, or flip the turn, push the history
record and classify. -/
def Board.MovePieceApply (b : Board) (f t : Int × Int) (piece : Piece) : MoveResult × Board :=
  if IsInCheckSq (applyBoard b.squares f t piece) b.currentTurn then
    (MoveResult.Invalid,
      { b with squares := (revertBoard (applyBoard b.squares f t piece) f t piece.pos
          (getSq b.squares t.1 t.2)) })
  else
    Board.MovePieceCommit
      { b with
        squares := applyBoard b.squares f t piece,
        currentTurn := flipColor b.currentTurn,
        history :=
          { fromSq := f, toSq := t, movedPiece := piece,
            capturedPiece := getSq b.squares t.1 t.2, wasMoved := piece.hasMoved,
            promotionOccurred := Piece.IsPromotion { piece with pos := t, hasMoved := true },
            previousTurn := b.currentTurn } :: b.history }

/-- Board::MovePiece (Main.cpp lines 448-530): the guard chain of lines
449-465 (game over, bounds, empty source, wrong turn, target not among the
valid moves) followed by the apply / revert-or-commit part. -/
def Board.MovePiece (b : Board) (f t : Int × Int) : MoveResult × Board :=
  if b.gameOver = true then (MoveResult.Invalid, b)
  else if ¬(InBounds f.1 f.2 ∧ InBounds t.1 t.2) then (MoveResult.Invalid, b)
  else
    match getSq b.squares f.1 f.2 with
    | none => (MoveResult.Invalid, b)
    | some piece =>
      if piece.color ≠ b.currentTurn then (MoveResult.Invalid, b)
      else if t ∈ piece.GetValidMoves b.squares then b.MovePieceApply f t piece
      else (MoveResult.Invalid, b)

/-- Board::MoveCommand::Undo (Main.cpp lines 320-336): put the cloned pre-move
piece back on the source square with its original position and hasMoved flag,
put the cloned captured piece (or nothing) back on the destination square
with its position reset, restore the turn, and clear gameOver and winner. -/
def MoveCommand.undoApply (c : MoveCommand) (b : Board) : Board :=
  { b with
    squares :=
      setSq
        (setSq b.squares c.fromSq.1 c.fromSq.2
          (some { c.movedPiece with pos := c.fromSq, hasMoved := c.wasMoved }))
        c.toSq.1 c.toSq.2 (c.capturedPiece.map fun q => { q with pos := c.toSq }),
    currentTurn := c.previousTurn,
    gameOver := false,
    winner := PieceColor.none }

/-- Board::UndoLastMove (Main.cpp lines 532-542): false on empty history,
otherwise undo the top record and pop it. -/
def Board.UndoLastMove (b : Board) : Bool × Board :=
  match b.history with
  | [] => (false, b)
  | c :: rest => (true, { c.undoApply b with history := rest })

/-- A consistency predicate for boards as they occur in a real game, decided
by evaluation: the grid has exactly 64 slots and every piece stores the
coordinates of the square it stands on (the source maintains this by updating
boardPosition on every relocation). -/
def WFSquaresB (sq : Squares) : Bool :=
  (sq.length == 64) &&
    allCoords.all fun xy =>
      match getSq sq xy.1 xy.2 with
      | some p => decide (p.pos = xy)
      | none => true

/-- Board-level consistency: consistent grid, a real side to move, and no
winner while the game is running (winner is only ever set together with
gameOver, and undo clears both). -/
def WFBoardB (b : Board) : Bool :=
  WFSquaresB b.squares &&
    (decide (b.currentTurn = PieceColor.white) || decide (b.currentTurn = PieceColor.black)) &&
    (b.gameOver || decide (b.winner = PieceColor.none))

/-- Decidable absence of a king of a color: no square holds a king piece of
that color. -/
def kingAbsent (sq : Squares) (c : PieceColor) : Bool :=
  allCoords.all fun xy =>
    match getSq sq xy.1 xy.2 with
    | some p => !(decide (p.type = PieceType.king) && decide (p.color = c))
    | none => true

/-- An empty 8x8 grid. -/
def emptySquares : Squares := List.replicate 64 none

/-- A freshly constructed piece placed on square (x, y). -/
def mkPieceAt (t : PieceType) (c : PieceColor) (x y : Int) : Option Piece :=
  some { type := t, color := c, pos := (x, y), hasMoved := false }

/-- A small consistent position: White rook a1, White king e1, Black king e8,
White to move.  The rook move a1-a3 commits with Success. -/
def witBoardA : Board :=
  { squares := setSq (setSq (setSq emptySquares 0 7
      (mkPieceAt PieceType.rook PieceColor.white 0 7)) 4 7
      (mkPieceAt PieceType.king PieceColor.white 4 7)) 4 0
      (mkPieceAt PieceType.king PieceColor.black 4 0),
    currentTurn := PieceColor.white, gameOver := false, winner := PieceColor.none,
    history := [] }

/-- White king e1, unmoved White rook e2, Black rook e8, Black king a8, White
to move: moving the rook off the e-file exposes the White king, so
MovePiece((4,6),(0,6)) takes the illegal-after-the-fact revert path. -/
def c1Board : Board :=
  { squares := setSq (setSq (setSq (setSq emptySquares 4 7
      (mkPieceAt PieceType.king PieceColor.white 4 7)) 4 6
      (mkPieceAt PieceType.rook PieceColor.white 4 6)) 4 0
      (mkPieceAt PieceType.rook PieceColor.black 4 0)) 0 0
      (mkPieceAt PieceType.king PieceColor.black 0 0),
    currentTurn := PieceColor.white, gameOver := false, winner := PieceColor.none,
    history := [] }

/-- White king e1, White pawn e7 pinned on the e-file by the Black rook e8,
Black bishop d8: the pawn capture e7xd8 promotes and then exposes the White
king, so MovePiece((4,1),(3,0)) takes the revert path after the promotion
swap already happened. -/
def c1BoardPromo : Board :=
  { squares := setSq (setSq (setSq (setSq emptySquares 4 1
      (mkPieceAt PieceType.pawn PieceColor.white 4 1)) 4 7
      (mkPieceAt PieceType.king PieceColor.white 4 7)) 4 0
      (mkPieceAt PieceType.rook PieceColor.black 4 0)) 3 0
      (mkPieceAt PieceType.bishop PieceColor.black 3 0),
    currentTurn := PieceColor.white, gameOver := false, winner := PieceColor.none,
    history := [] }

/-- The White pawn of the promotion witness position. -/
def c8Pawn : Piece :=
  { type := PieceType.pawn, color := PieceColor.white, pos := (0, 1), hasMoved := false }

/-- White pawn a7 about to promote, Black king h2; the move a7-a8 commits
with Success and leaves a Queen on a8. -/
def c8Board : Board :=
  { squares := setSq (setSq emptySquares 0 1 (some c8Pawn)) 7 6
      (mkPieceAt PieceType.king PieceColor.black 7 6),
    currentTurn := PieceColor.white, gameOver := false, winner := PieceColor.none,
    history := [] }

/-- Black king a8, White queen b3, White king h1, White to move: the queen
move b3-b6 stalemates the Black king. -/
def c10Board : Board :=
  { squares := setSq (setSq (setSq emptySquares 0 0
      (mkPieceAt PieceType.king PieceColor.black 0 0)) 1 5
      (mkPieceAt PieceType.queen PieceColor.white 1 5)) 7 7
      (mkPieceAt PieceType.king PieceColor.white 7 7),
    currentTurn := PieceColor.white, gameOver := false, winner := PieceColor.none,
    history := [] }

/-- The White pawn of the pawn-move witness position. -/
def c7Pawn : Piece :=
  { type := PieceType.pawn, color := PieceColor.white, pos := (4, 6), hasMoved := false }

/-- Grid with the White pawn on e2 and a Black knight on d3 (a diagonal
capture target). -/
def c7Sq : Squares :=
  setSq (setSq emptySquares 4 6 (some c7Pawn)) 3 5
    (mkPieceAt PieceType.knight PieceColor.black 3 5)

theorem sqIdx_lt_of_inBounds {x y : Int} (h : InBounds x y) : sqIdx x y < 64 := by
  unfold InBounds at h
  unfold sqIdx
  omega

theorem sqIdx_inj {x y x' y' : Int} (h : InBounds x y) (h' : InBounds x' y')
    (hne : ¬((x, y) = (x', y'))) : sqIdx x y ≠ sqIdx x' y' := by
  intro hEq
  apply hne
  unfold InBounds at h h'
  unfold sqIdx at hEq
  rw [Prod.mk.injEq]
  constructor <;> omega

theorem list_getD_set_self {α : Type} (l : List α) (i : Nat) (a d : α)
    (h : i < l.length) : (l.set i a).getD i d = a := by
  induction l generalizing i with
  | nil => simp at h
  | cons hd tl ih =>
    cases i with
    | zero => rfl
    | succ n => simpa [List.getD] using ih n (by simpa using h)

theorem list_getD_set_ne {α : Type} (l : List α) (i j : Nat) (a d : α)
    (h : i ≠ j) : (l.set i a).getD j d = l.getD j d := by
  induction l generalizing i j with
  | nil => simp
  | cons hd tl ih =>
    cases i with
    | zero =>
      cases j with
      | zero => exact absurd rfl h
      | succ m => rfl
    | succ n =>
      cases j with
      | zero => rfl
      | succ m => simpa [List.getD] using ih n m (by omega)

theorem list_set_getD_self {α : Type} (l : List α) (i : Nat) (d : α)
    (h : i < l.length) : l.set i (l.getD i d) = l := by
  induction l generalizing i with
  | nil => simp at h
  | cons hd tl ih =>
    cases i with
    | zero => rfl
    | succ n => simpa [List.getD] using ih n (by simpa using h)

theorem length_setSq (sq : Squares) (x y : Int) (p : Option Piece) :
    (setSq sq x y p).length = sq.length := by
  unfold setSq
  by_cases h : InBounds x y
  · rw [if_pos h, List.length_set]
  · rw [if_neg h]

theorem getSq_setSq_self (sq : Squares) {x y : Int} (p : Option Piece)
    (h : InBounds x y) (hlen : sq.length = 64) :
    getSq (setSq sq x y p) x y = p := by
  unfold getSq setSq
  rw [if_pos h, if_pos h]
  exact list_getD_set_self _ _ _ _ (by rw [hlen]; exact sqIdx_lt_of_inBounds h)

theorem getSq_setSq_ne (sq : Squares) {x y x' y' : Int} (p : Option Piece)
    (hne : ¬((x, y) = (x', y'))) :
    getSq (setSq sq x y p) x' y' = getSq sq x' y' := by
  unfold getSq setSq
  by_cases h : InBounds x y
  · rw [if_pos h]
    by_cases h' : InBounds x' y'
    · rw [if_pos h', if_pos h']
      exact list_getD_set_ne _ _ _ _ _ (sqIdx_inj h h' hne)
    · rw [if_neg h', if_neg h']
  · rw [if_neg h]

theorem setSq_setSq_self (sq : Squares) (x y : Int) (p q : Option Piece) :
    setSq (setSq sq x y p) x y q = setSq sq x y q := by
  unfold setSq
  by_cases h : InBounds x y
  · rw [if_pos h, if_pos h, if_pos h, List.set_set]
  · rw [if_neg h, if_neg h, if_neg h]

theorem setSq_comm (sq : Squares) {x y x' y' : Int} (p q : Option Piece)
    (h : InBounds x y) (h' : InBounds x' y') (hne : ¬((x, y) = (x', y'))) :
    setSq (setSq sq x y p) x' y' q = setSq (setSq sq x' y' q) x y p := by
  unfold setSq
  rw [if_pos h, if_pos h', if_pos h', if_pos h]
  exact List.set_comm _ _ _ (sqIdx_inj h h' hne)

theorem setSq_getSq_self (sq : Squares) {x y : Int}
    (h : InBounds x y) (hlen : sq.length = 64) :
    setSq sq x y (getSq sq x y) = sq := by
  unfold getSq setSq
  rw [if_pos h, if_pos h]
  exact list_set_getD_self _ _ _ (by rw [hlen]; exact sqIdx_lt_of_inBounds h)

theorem getSq_none_of_not_inBounds (sq : Squares) {x y : Int}
    (h : ¬InBounds x y) : getSq sq x y = none := by
  unfold getSq
  rw [if_neg h]

theorem inBounds_of_getSq_some {sq : Squares} {x y : Int} {p : Piece}
    (h : getSq sq x y = some p) : InBounds x y := by
  by_contra hb
  rw [getSq_none_of_not_inBounds sq hb] at h
  cases h

theorem mem_allCoords {x y : Int} : (x, y) ∈ allCoords ↔ InBounds x y := by
  unfold allCoords InBounds
  constructor
  · intro h
    obtain ⟨b, hb, h2⟩ := List.mem_flatMap.mp h
    obtain ⟨a, ha, hEq⟩ := List.mem_map.mp h2
    rw [List.mem_range] at hb ha
    rw [Prod.mk.injEq] at hEq
    obtain ⟨h1, h2⟩ := hEq
    omega
  · intro h
    exact List.mem_flatMap.mpr ⟨y.toNat, List.mem_range.mpr (by omega),
      List.mem_map.mpr ⟨x.toNat, List.mem_range.mpr (by omega),
        by rw [Prod.mk.injEq]; exact ⟨by omega, by omega⟩⟩⟩

theorem mem_allCoords_pair {xy : Int × Int} : xy ∈ allCoords ↔ InBounds xy.1 xy.2 := by
  cases xy
  exact mem_allCoords

theorem mem_ray (sq : Squares) (c : PieceColor) (dx dy : Int) :
    ∀ (fuel : Nat) (x y : Int) (m : Int × Int), m ∈ ray sq c x y dx dy fuel →
      InBounds m.1 m.2 ∧ ∃ k : Nat, 1 ≤ k ∧ m.1 = x + (k : Int) * dx ∧ m.2 = y + (k : Int) * dy := by
  intro fuel
  induction fuel with
  | zero =>
    intro x y m h
    simp [ray] at h
  | succ n ih =>
    intro x y m h
    rw [ray] at h
    by_cases hb : InBounds (x + dx) (y + dy)
    · rw [if_pos hb] at h
      cases hg : getSq sq (x + dx) (y + dy) with
      | none =>
        rw [hg] at h
        simp only [] at h
        rcases List.mem_cons.mp h with h1 | h2
        · subst h1
          exact ⟨hb, 1, le_refl 1, by push_cast; ring, by push_cast; ring⟩
        · obtain ⟨hbm, k, hk, h1, h2⟩ := ih (x + dx) (y + dy) m h2
          refine ⟨hbm, k + 1, by omega, ?_, ?_⟩
          · rw [h1]; push_cast; ring
          · rw [h2]; push_cast; ring
      | some q =>
        rw [hg] at h
        simp only [] at h
        by_cases hc : q.color ≠ c
        · rw [if_pos hc] at h
          have h1 := List.mem_singleton.mp h
          subst h1
          exact ⟨hb, 1, le_refl 1, by push_cast; ring, by push_cast; ring⟩
        · rw [if_neg hc] at h
          simp at h
    · rw [if_neg hb] at h
      simp at h

theorem mem_slideMoves {sq : Squares} {c : PieceColor} {pos : Int × Int}
    {dirs : List (Int × Int)} {m : Int × Int}
    (hdirs : ∀ d ∈ dirs, d ≠ ((0 : Int), (0 : Int)))
    (h : m ∈ slideMoves sq c pos dirs) : InBounds m.1 m.2 ∧ m ≠ pos := by
  obtain ⟨d, hd, hm⟩ := List.mem_flatMap.mp h
  obtain ⟨hbm, k, hk, h1, h2⟩ := mem_ray sq c d.1 d.2 7 pos.1 pos.2 m hm
  refine ⟨hbm, ?_⟩
  intro hEq
  subst hEq
  apply hdirs d hd
  have hk' : (k : Int) ≠ 0 := Nat.cast_ne_zero.mpr (Nat.one_le_iff_ne_zero.mp hk)
  have hd1 : (k : Int) * d.1 = 0 := by linarith
  have hd2 : (k : Int) * d.2 = 0 := by linarith
  rcases mul_eq_zero.mp hd1 with h' | h'
  · exact absurd h' hk'
  · rcases mul_eq_zero.mp hd2 with h'' | h''
    · exact absurd h'' hk'
    · rcases d with ⟨d1, d2⟩
      rw [Prod.mk.injEq]
      exact ⟨h', h''⟩

theorem offset_ne_self {pos o : Int × Int} (ho : o ≠ ((0 : Int), (0 : Int))) :
    ((pos.1 + o.1, pos.2 + o.2) : Int × Int) ≠ pos := by
  intro hEq
  apply ho
  rcases o with ⟨o1, o2⟩
  rcases pos with ⟨p1, p2⟩
  rw [Prod.mk.injEq] at hEq ⊢
  obtain ⟨e1, e2⟩ := hEq
  constructor <;> omega

theorem mem_stepMoves {sq : Squares} {c : PieceColor} {pos : Int × Int}
    {offs : List (Int × Int)} {m : Int × Int}
    (hoffs : ∀ o ∈ offs, o ≠ ((0 : Int), (0 : Int)))
    (h : m ∈ stepMoves sq c pos offs) : InBounds m.1 m.2 ∧ m ≠ pos := by
  unfold stepMoves at h
  obtain ⟨o, ho, hfo⟩ := List.mem_filterMap.mp h
  by_cases hb : InBounds (pos.1 + o.1) (pos.2 + o.2)
  · rw [if_pos hb] at hfo
    cases hg : getSq sq (pos.1 + o.1) (pos.2 + o.2) with
    | none =>
      rw [hg] at hfo
      simp only [] at hfo
      have hm := Option.some.inj hfo
      subst hm
      exact ⟨hb, offset_ne_self (hoffs o ho)⟩
    | some q =>
      rw [hg] at hfo
      simp only [] at hfo
      by_cases hc : q.color ≠ c
      · rw [if_pos hc] at hfo
        have hm := Option.some.inj hfo
        subst hm
        exact ⟨hb, offset_ne_self (hoffs o ho)⟩
      · rw [if_neg hc] at hfo
        cases hfo
  · rw [if_neg hb] at hfo
    cases hfo

theorem mem_pawnMoves {sq : Squares} {p : Piece} {m : Int × Int}
    (h : m ∈ pawnMoves sq p) : InBounds m.1 m.2 ∧ m ≠ p.pos := by
  unfold pawnMoves at h
  set d := (if p.color = PieceColor.white then (-1 : Int) else 1) with hdd
  have hd : d = -1 ∨ d = 1 := by
    rw [hdd]
    split <;> simp
  rcases List.mem_append.mp h with h1 | h2
  · by_cases hf : InBounds p.pos.1 (p.pos.2 + d) ∧ getSq sq p.pos.1 (p.pos.2 + d) = none
    · rw [if_pos hf] at h1
      rcases List.mem_cons.mp h1 with hm | hm
      · subst hm
        refine ⟨hf.1, ?_⟩
        intro hEq
        have h2 : p.pos.2 + d = p.pos.2 := congrArg Prod.snd hEq
        rcases hd with hd | hd <;> omega
      · by_cases hdb : p.pos.2 = (if p.color = PieceColor.white then 6 else 1) ∧
            InBounds p.pos.1 (p.pos.2 + 2 * d) ∧ getSq sq p.pos.1 (p.pos.2 + 2 * d) = none
        · rw [if_pos hdb] at hm
          have hm2 := List.mem_singleton.mp hm
          subst hm2
          refine ⟨hdb.2.1, ?_⟩
          intro hEq
          have h2 : p.pos.2 + 2 * d = p.pos.2 := congrArg Prod.snd hEq
          rcases hd with hd | hd <;> omega
        · rw [if_neg hdb] at hm
          cases hm
    · rw [if_neg hf] at h1
      cases h1
  · obtain ⟨dx, hdx, hfo⟩ := List.mem_filterMap.mp h2
    have hdx' : dx = -1 ∨ dx = 1 := by
      rcases List.mem_cons.mp hdx with h' | h'
      · exact Or.inl h'
      · exact Or.inr (List.mem_singleton.mp h')
    by_cases hb : InBounds (p.pos.1 + dx) (p.pos.2 + d)
    · rw [if_pos hb] at hfo
      cases hg : getSq sq (p.pos.1 + dx) (p.pos.2 + d) with
      | none =>
        rw [hg] at hfo
        simp only [] at hfo
        cases hfo
      | some q =>
        rw [hg] at hfo
        simp only [] at hfo
        by_cases hc : q.color ≠ p.color
        · rw [if_pos hc] at hfo
          have hm := Option.some.inj hfo
          subst hm
          refine ⟨hb, ?_⟩
          intro hEq
          have h2 : p.pos.2 + d = p.pos.2 := congrArg Prod.snd hEq
          rcases hd with hd | hd <;> omega
        · rw [if_neg hc] at hfo
          cases hfo
    · rw [if_neg hb] at hfo
      cases hfo

/-- Every move produced by Piece::GetValidMoves targets an in-bounds square
distinct from the square the piece reports as its own position. -/
theorem mem_getValidMoves {p : Piece} {sq : Squares} {m : Int × Int}
    (h : m ∈ p.GetValidMoves sq) : InBounds m.1 m.2 ∧ m ≠ p.pos := by
  unfold Piece.GetValidMoves at h
  split at h
  · exact mem_slideMoves (by decide) h
  · exact mem_stepMoves (by decide) h
  · exact mem_slideMoves (by decide) h
  · exact mem_slideMoves (by decide) h
  · exact mem_stepMoves (by decide) h
  · exact mem_pawnMoves h

/-- The restore step of HasLegalMoves exactly undoes the simulation step:
with a consistent piece on (x, y) and an in-bounds candidate move distinct
from (x, y), restoring after simulating returns the original grid. -/
theorem restoreMove_eq (sq : Squares) {x y : Int} (p : Piece) (m : Int × Int)
    (hlen : sq.length = 64) (hxy : InBounds x y) (hm : InBounds m.1 m.2)
    (hp : getSq sq x y = some p) (hpos : p.pos = (x, y)) (hne : ¬(m = (x, y))) :
    restoreMove sq x y p m = sq := by
  obtain ⟨m1, m2⟩ := m
  have hne2 : ¬(((x, y) : Int × Int) = (m1, m2)) := fun hEq => hne hEq.symm
  have hsim : getSq (simMove sq x y p (m1, m2)) m1 m2 = some { p with pos := (m1, m2) } := by
    unfold simMove
    rw [getSq_setSq_ne _ _ hne2]
    exact getSq_setSq_self sq _ hm hlen
  unfold restoreMove
  rw [hsim]
  simp only []
  have hq : ({ { p with pos := (m1, m2) } with pos := p.pos } : Piece) = p := rfl
  rw [hq]
  unfold simMove
  rw [setSq_setSq_self]
  rw [setSq_comm sq (some { p with pos := (m1, m2) }) (some p) hm hxy hne]
  rw [setSq_setSq_self]
  rw [← hp, setSq_getSq_self sq hxy hlen]
  exact setSq_getSq_self sq hm hlen

/-- The move loop of HasLegalMoves leaves the grid unchanged and returns true
exactly when some candidate move survives the self-check test. -/
theorem tryMoves_eq (c : PieceColor) {x y : Int} (sq : Squares) (p : Piece)
    (hlen : sq.length = 64) (hxy : InBounds x y) (hp : getSq sq x y = some p)
    (hpos : p.pos = (x, y)) :
    ∀ ms : List (Int × Int), (∀ m ∈ ms, InBounds m.1 m.2 ∧ ¬(m = (x, y))) →
      tryMoves c x y sq ms =
        ((ms.any fun m => !IsInCheckSq (simMove sq x y p m) c), sq) := by
  intro ms
  induction ms with
  | nil => intro _; rfl
  | cons m rest ih =>
    intro hms
    have h1 := hms m (List.mem_cons_self m rest)
    have hrest : ∀ m' ∈ rest, InBounds m'.1 m'.2 ∧ ¬(m' = (x, y)) :=
      fun m' hm' => hms m' (List.mem_cons_of_mem m hm')
    have hres : restoreMove sq x y p m = sq :=
      restoreMove_eq sq p m hlen hxy h1.1 hp hpos h1.2
    rw [tryMoves, hp]
    simp only []
    by_cases hic : IsInCheckSq (simMove sq x y p m) c = true
    · rw [if_pos hic, hres, ih hrest]
      rw [List.any_cons]
      simp [hic]
    · rw [if_neg hic, hres]
      rw [List.any_cons]
      rw [Bool.not_eq_true] at hic
      simp [hic]

/-- The square scan of HasLegalMoves leaves the grid unchanged and returns the
any-quantification over pieces of the color and their candidate moves. -/
theorem legalScan_eq (c : PieceColor) (sq : Squares)
    (hlen : sq.length = 64)
    (hpos : ∀ x y q, getSq sq x y = some q → q.pos = (x, y)) :
    ∀ coords : List (Int × Int),
      legalScan c sq coords =
        ((coords.any fun xy =>
          match getSq sq xy.1 xy.2 with
          | some p => decide (p.color = c) &&
              ((p.GetValidMoves sq).any fun m => !IsInCheckSq (simMove sq xy.1 xy.2 p m) c)
          | none => false), sq) := by
  intro coords
  induction coords with
  | nil => rfl
  | cons xy rest ih =>
    rw [legalScan]
    cases hg : getSq sq xy.1 xy.2 with
    | none =>
      simp only []
      rw [ih, List.any_cons]
      simp [hg]
    | some p =>
      simp only []
      by_cases hc : p.color = c
      · rw [if_pos hc]
        have hmoves : ∀ m ∈ p.GetValidMoves sq, InBounds m.1 m.2 ∧ ¬(m = (xy.1, xy.2)) := by
          intro m hm
          obtain ⟨hb, hne⟩ := mem_getValidMoves hm
          refine ⟨hb, ?_⟩
          rw [hpos xy.1 xy.2 p hg] at hne
          exact hne
        have htm := tryMoves_eq c sq p hlen (inBounds_of_getSq_some hg) hg
          (hpos xy.1 xy.2 p hg) (p.GetValidMoves sq) hmoves
        rw [htm]
        by_cases hany : ((p.GetValidMoves sq).any fun m =>
            !IsInCheckSq (simMove sq xy.1 xy.2 p m) c) = true
        · rw [hany]
          simp only []
          rw [List.any_cons]
          simp [hg, hc, hany]
        · rw [Bool.not_eq_true] at hany
          rw [hany]
          simp only []
          rw [ih, List.any_cons]
          simp [hg, hc, hany]
      · rw [if_neg hc, ih, List.any_cons]
        simp [hg, hc]

/-- Transfer of the decidable grid consistency predicate: the length part. -/
theorem wfSquaresB_length {sq : Squares} (h : WFSquaresB sq = true) : sq.length = 64 := by
  unfold WFSquaresB at h
  rw [Bool.and_eq_true] at h
  exact beq_iff_eq.mp h.1

/-- Transfer of the decidable grid consistency predicate: the position part. -/
theorem wfSquaresB_pos {sq : Squares} (h : WFSquaresB sq = true) :
    ∀ x y p, getSq sq x y = some p → p.pos = (x, y) := by
  intro x y p hp
  unfold WFSquaresB at h
  rw [Bool.and_eq_true] at h
  have h2 := h.2
  rw [List.all_eq_true] at h2
  have h3 := h2 (x, y) (mem_allCoords.mpr (inBounds_of_getSq_some hp))
  simp only [] at h3
  rw [hp] at h3
  simp only [] at h3
  exact of_decide_eq_true h3

theorem wfBoardB_squares {b : Board} (h : WFBoardB b = true) : WFSquaresB b.squares = true := by
  unfold WFBoardB at h
  rw [Bool.and_eq_true, Bool.and_eq_true] at h
  exact h.1.1

theorem wfBoardB_turn {b : Board} (h : WFBoardB b = true) :
    b.currentTurn = PieceColor.white ∨ b.currentTurn = PieceColor.black := by
  unfold WFBoardB at h
  rw [Bool.and_eq_true, Bool.and_eq_true] at h
  have h2 := h.1.2
  rw [Bool.or_eq_true] at h2
  rcases h2 with h2 | h2
  · exact Or.inl (of_decide_eq_true h2)
  · exact Or.inr (of_decide_eq_true h2)

theorem wfBoardB_winner {b : Board} (h : WFBoardB b = true) (hgo : b.gameOver = false) :
    b.winner = PieceColor.none := by
  unfold WFBoardB at h
  rw [Bool.and_eq_true] at h
  have h2 := h.2
  rw [Bool.or_eq_true] at h2
  rcases h2 with h2 | h2
  · rw [hgo] at h2; cases h2
  · exact of_decide_eq_true h2

/-- HasLegalMoves hands the board back unchanged (grid restored, every other
field untouched). -/
theorem hasLegalMoves_snd (b : Board) (c : PieceColor)
    (hlen : b.squares.length = 64)
    (hpos : ∀ x y q, getSq b.squares x y = some q → q.pos = (x, y)) :
    (b.HasLegalMoves c).2 = b := by
  unfold Board.HasLegalMoves
  rw [legalScan_eq c b.squares hlen hpos allCoords]

theorem hasLegalMoves_fst (b : Board) (c : PieceColor)
    (hlen : b.squares.length = 64)
    (hpos : ∀ x y q, getSq b.squares x y = some q → q.pos = (x, y)) :
    (b.HasLegalMoves c).1 =
      allCoords.any fun xy =>
        match getSq b.squares xy.1 xy.2 with
        | some p => decide (p.color = c) &&
            ((p.GetValidMoves b.squares).any fun m =>
              !IsInCheckSq (simMove b.squares xy.1 xy.2 p m) c)
        | none => false := by
  unfold Board.HasLegalMoves
  rw [legalScan_eq c b.squares hlen hpos allCoords]

/-- Reading the grid after the move application of MovePiece: the source
square is cleared, the target square holds the relocated piece (or the fresh
promotion Queen), and every other square is untouched. -/
theorem getSq_applyBoard (sq : Squares) (f t : Int × Int) (piece : Piece)
    (hlen : sq.length = 64) (hf : InBounds f.1 f.2) (ht : InBounds t.1 t.2)
    (hft : ¬(f = t)) :
    (∀ x y : Int, ¬((x, y) = f) → ¬((x, y) = t) →
      getSq (applyBoard sq f t piece) x y = getSq sq x y) ∧
    getSq (applyBoard sq f t piece) f.1 f.2 = none ∧
    getSq (applyBoard sq f t piece) t.1 t.2 =
      some (if Piece.IsPromotion { piece with pos := t, hasMoved := true }
            then PieceFactory.CreatePiece PieceType.queen piece.color t
            else { piece with pos := t, hasMoved := true }) := by
  obtain ⟨f1, f2⟩ := f
  obtain ⟨t1, t2⟩ := t
  have hlen1 : (setSq sq t1 t2 (some { piece with pos := (t1, t2), hasMoved := true })).length = 64 := by
    rw [length_setSq]; exact hlen
  have hlen2 : (setSq (setSq sq t1 t2 (some { piece with pos := (t1, t2), hasMoved := true })) f1 f2 none).length = 64 := by
    rw [length_setSq]; exact hlen1
  have hgf : getSq (setSq (setSq sq t1 t2 (some { piece with pos := (t1, t2), hasMoved := true })) f1 f2 none) f1 f2 = none :=
    getSq_setSq_self _ _ hf hlen1
  have hgt : getSq (setSq (setSq sq t1 t2 (some { piece with pos := (t1, t2), hasMoved := true })) f1 f2 none) t1 t2 =
      some { piece with pos := (t1, t2), hasMoved := true } := by
    rw [getSq_setSq_ne _ _ hft]
    exact getSq_setSq_self _ _ ht hlen
  have hother : ∀ x y : Int, ¬((x, y) = ((f1, f2) : Int × Int)) → ¬((x, y) = ((t1, t2) : Int × Int)) →
      getSq (setSq (setSq sq t1 t2 (some { piece with pos := (t1, t2), hasMoved := true })) f1 f2 none) x y = getSq sq x y := by
    intro x y hxf hxt
    rw [getSq_setSq_ne _ _ (fun hEq => hxf hEq.symm), getSq_setSq_ne _ _ (fun hEq => hxt hEq.symm)]
  unfold applyBoard
  by_cases hpromo : Piece.IsPromotion { piece with pos := ((t1, t2) : Int × Int), hasMoved := true } = true
  · rw [if_pos hpromo]
    unfold HandlePromotion
    rw [hgt]
    simp only []
    refine ⟨?_, ?_, ?_⟩
    · intro x y hxf hxt
      rw [getSq_setSq_ne _ _ (fun hEq => hxt hEq.symm)]
      exact hother x y hxf hxt
    · rw [getSq_setSq_ne _ _ (fun hEq => hft hEq.symm)]
      exact hgf
    · rw [getSq_setSq_self _ _ ht hlen2, if_pos hpromo]
  · rw [if_neg hpromo]
    refine ⟨hother, hgf, ?_⟩
    rw [hgt, if_neg hpromo]

theorem length_handlePromotion (sq : Squares) (pos : Int × Int) :
    (HandlePromotion sq pos).length = sq.length := by
  unfold HandlePromotion
  cases getSq sq pos.1 pos.2 with
  | none => rfl
  | some p => simp only []; rw [length_setSq]

theorem length_applyBoard (sq : Squares) (f t : Int × Int) (piece : Piece) :
    (applyBoard sq f t piece).length = sq.length := by
  unfold applyBoard
  by_cases hpromo : Piece.IsPromotion { piece with pos := t, hasMoved := true } = true
  · rw [if_pos hpromo, length_handlePromotion, length_setSq, length_setSq]
  · rw [if_neg hpromo, length_setSq, length_setSq]

/-- The applied board is again position-consistent. -/
theorem applyBoard_pos (sq : Squares) (f t : Int × Int) (piece : Piece)
    (hlen : sq.length = 64)
    (hpos : ∀ x y q, getSq sq x y = some q → q.pos = (x, y))
    (hf : InBounds f.1 f.2) (ht : InBounds t.1 t.2) (hft : ¬(f = t)) :
    ∀ x y q, getSq (applyBoard sq f t piece) x y = some q → q.pos = (x, y) := by
  obtain ⟨f1, f2⟩ := f
  obtain ⟨t1, t2⟩ := t
  obtain ⟨hother, hfrom, hto⟩ := getSq_applyBoard sq (f1, f2) (t1, t2) piece hlen hf ht hft
  intro x y q hq
  by_cases hxf : ((x, y) : Int × Int) = (f1, f2)
  · rw [Prod.mk.injEq] at hxf
    obtain ⟨hx, hy⟩ := hxf
    rw [hx, hy] at hq
    rw [hfrom] at hq
    cases hq
  · by_cases hxt : ((x, y) : Int × Int) = (t1, t2)
    · rw [Prod.mk.injEq] at hxt
      obtain ⟨hx, hy⟩ := hxt
      rw [hx, hy] at hq ⊢
      rw [hto] at hq
      have hq2 := Option.some.inj hq
      by_cases hpromo : Piece.IsPromotion { piece with pos := ((t1, t2) : Int × Int), hasMoved := true } = true
      · rw [if_pos hpromo] at hq2
        rw [← hq2]
        rfl
      · rw [if_neg hpromo] at hq2
        rw [← hq2]
    · rw [hother x y hxf hxt] at hq
      exact hpos x y q hq

/-- The applied board written as a two-write chain: set the target square to
the moved piece or the promotion Queen, then clear the source square. -/
theorem applyBoard_as_sets (sq : Squares) (f t : Int × Int) (piece : Piece)
    (hlen : sq.length = 64) (hf : InBounds f.1 f.2) (ht : InBounds t.1 t.2)
    (hft : ¬(f = t)) :
    ∃ Y : Option Piece,
      applyBoard sq f t piece = setSq (setSq sq t.1 t.2 Y) f.1 f.2 none := by
  obtain ⟨f1, f2⟩ := f
  obtain ⟨t1, t2⟩ := t
  unfold applyBoard
  by_cases hpromo : Piece.IsPromotion { piece with pos := ((t1, t2) : Int × Int), hasMoved := true } = true
  · rw [if_pos hpromo]
    refine ⟨some (PieceFactory.CreatePiece PieceType.queen piece.color (t1, t2)), ?_⟩
    have hgt : getSq (setSq (setSq sq t1 t2 (some { piece with pos := (t1, t2), hasMoved := true })) f1 f2 none) t1 t2 =
        some { piece with pos := (t1, t2), hasMoved := true } := by
      rw [getSq_setSq_ne _ _ hft]
      exact getSq_setSq_self _ _ ht hlen
    unfold HandlePromotion
    rw [hgt]
    simp only []
    rw [setSq_comm _ _ _ hf ht hft, setSq_setSq_self]
  · rw [if_neg hpromo]
    exact ⟨some { piece with pos := (t1, t2), hasMoved := true }, rfl⟩

theorem movePieceCommit_fst_ne_invalid (b : Board) :
    (Board.MovePieceCommit b).1 ≠ MoveResult.Invalid := by
  unfold Board.MovePieceCommit
  split_ifs <;> simp

theorem movePieceCommit_snd_turn_history (b : Board) :
    (Board.MovePieceCommit b).2.currentTurn = b.currentTurn ∧
    (Board.MovePieceCommit b).2.history = b.history := by
  unfold Board.MovePieceCommit Board.HasLegalMoves
  split_ifs <;> exact ⟨rfl, rfl⟩

/-- Under grid consistency, the classification tail evaluates on the original
grid (HasLegalMoves restores it) and returns the four-way classification. -/
theorem movePieceCommit_spec (b : Board)
    (hlen : b.squares.length = 64)
    (hpos : ∀ x y q, getSq b.squares x y = some q → q.pos = (x, y)) :
    Board.MovePieceCommit b =
      (if IsInCheckSq b.squares b.currentTurn then
        (if (b.HasLegalMoves b.currentTurn).1 then (MoveResult.Check, b)
         else (MoveResult.Checkmate, { b with gameOver := true, winner := flipColor b.currentTurn }))
      else
        (if (b.HasLegalMoves b.currentTurn).1 then (MoveResult.Success, b)
         else (MoveResult.Stalemate, { b with gameOver := true, winner := PieceColor.none }))) := by
  have hb2 := hasLegalMoves_snd b b.currentTurn hlen hpos
  unfold Board.MovePieceCommit
  rw [hb2]
  cases hic : IsInCheckSq b.squares b.currentTurn <;>
    cases hhm : (b.HasLegalMoves b.currentTurn).1 <;>
      simp [hic, hhm]

/-- Inversion of a committing call of MovePiece: every guard of lines 449-465
passed, the self-check test of line 493 failed, and the call equals the
classification tail on the applied board with flipped turn and pushed
record. -/
theorem movePiece_commit_cases (b : Board) (f t : Int × Int)
    (h : (b.MovePiece f t).1 ≠ MoveResult.Invalid) :
    ∃ piece, b.gameOver = false ∧ InBounds f.1 f.2 ∧ InBounds t.1 t.2 ∧
      getSq b.squares f.1 f.2 = some piece ∧ piece.color = b.currentTurn ∧
      t ∈ piece.GetValidMoves b.squares ∧
      IsInCheckSq (applyBoard b.squares f t piece) b.currentTurn = false ∧
      b.MovePiece f t = Board.MovePieceCommit { b with
        squares := applyBoard b.squares f t piece,
        currentTurn := flipColor b.currentTurn,
        history :=
          { fromSq := f, toSq := t, movedPiece := piece,
            capturedPiece := getSq b.squares t.1 t.2, wasMoved := piece.hasMoved,
            promotionOccurred := Piece.IsPromotion { piece with pos := t, hasMoved := true },
            previousTurn := b.currentTurn } :: b.history } := by
  unfold Board.MovePiece at h
  by_cases hgo : b.gameOver = true
  · rw [if_pos hgo] at h
    exact absurd rfl h
  · rw [if_neg hgo] at h
    rw [Bool.not_eq_true] at hgo
    by_cases hbnd : ¬(InBounds f.1 f.2 ∧ InBounds t.1 t.2)
    · rw [if_pos hbnd] at h
      exact absurd rfl h
    · rw [if_neg hbnd] at h
      rw [not_not] at hbnd
      cases hp : getSq b.squares f.1 f.2 with
      | none =>
        rw [hp] at h
        simp only [] at h
        exact absurd rfl h
      | some piece =>
        rw [hp] at h
        simp only [] at h
        by_cases hcol : piece.color ≠ b.currentTurn
        · rw [if_pos hcol] at h
          exact absurd rfl h
        · rw [if_neg hcol] at h
          by_cases hmem : t ∈ piece.GetValidMoves b.squares
          · rw [if_pos hmem] at h
            unfold Board.MovePieceApply at h
            by_cases hchk : IsInCheckSq (applyBoard b.squares f t piece) b.currentTurn = true
            · rw [if_pos hchk] at h
              exact absurd rfl h
            · have hchk2 : IsInCheckSq (applyBoard b.squares f t piece) b.currentTurn = false := by
                rw [← Bool.not_eq_true]
                exact hchk
              have heq : b.MovePiece f t = Board.MovePieceCommit { b with
                  squares := applyBoard b.squares f t piece,
                  currentTurn := flipColor b.currentTurn,
                  history :=
                    { fromSq := f, toSq := t, movedPiece := piece,
                      capturedPiece := getSq b.squares t.1 t.2, wasMoved := piece.hasMoved,
                      promotionOccurred := Piece.IsPromotion { piece with pos := t, hasMoved := true },
                      previousTurn := b.currentTurn } :: b.history } := by
                unfold Board.MovePiece Board.MovePieceApply
                rw [if_neg (by rw [hgo]; intro hc; cases hc), if_neg (not_not.mpr hbnd), hp]
                simp only []
                rw [if_neg hcol, if_pos hmem, if_neg hchk]
              rw [ne_eq, not_not] at hcol
              exact ⟨piece, hgo, hbnd.1, hbnd.2, rfl, hcol, hmem, hchk2, heq⟩
          · rw [if_neg hmem] at h
            exact absurd rfl h

/-- Turn behavior along every path of MovePiece: an Invalid result leaves
currentTurn untouched, any other result flips it (line 502 runs exactly on
the commit path). -/
theorem movePiece_turn (b : Board) (f t : Int × Int) :
    ((b.MovePiece f t).1 = MoveResult.Invalid → (b.MovePiece f t).2.currentTurn = b.currentTurn) ∧
    ((b.MovePiece f t).1 ≠ MoveResult.Invalid →
      (b.MovePiece f t).2.currentTurn = flipColor b.currentTurn) := by
  unfold Board.MovePiece Board.MovePieceApply
  by_cases hgo : b.gameOver = true
  · rw [if_pos hgo]
    exact ⟨fun _ => rfl, fun h => absurd rfl h⟩
  · rw [if_neg hgo]
    by_cases hbnd : ¬(InBounds f.1 f.2 ∧ InBounds t.1 t.2)
    · rw [if_pos hbnd]
      exact ⟨fun _ => rfl, fun h => absurd rfl h⟩
    · rw [if_neg hbnd]
      cases hp : getSq b.squares f.1 f.2 with
      | none => exact ⟨fun _ => rfl, fun h => absurd rfl h⟩
      | some piece =>
        simp only []
        by_cases hcol : piece.color ≠ b.currentTurn
        · rw [if_pos hcol]
          exact ⟨fun _ => rfl, fun h => absurd rfl h⟩
        · rw [if_neg hcol]
          by_cases hmem : t ∈ piece.GetValidMoves b.squares
          · rw [if_pos hmem]
            by_cases hchk : IsInCheckSq (applyBoard b.squares f t piece) b.currentTurn = true
            · rw [if_pos hchk]
              exact ⟨fun _ => rfl, fun h => absurd rfl h⟩
            · rw [if_neg hchk]
              refine ⟨fun hinv => absurd hinv (movePieceCommit_fst_ne_invalid _), fun _ => ?_⟩
              exact (movePieceCommit_snd_turn_history _).1
          · rw [if_neg hmem]
            exact ⟨fun _ => rfl, fun h => absurd rfl h⟩

/-- Strengthened inversion of a committing call, bundling the consistency
facts needed downstream. -/
theorem movePiece_commit_strong (b : Board) (f t : Int × Int)
    (hwf : WFBoardB b = true) (h : (b.MovePiece f t).1 ≠ MoveResult.Invalid) :
    ∃ piece, getSq b.squares f.1 f.2 = some piece ∧ b.gameOver = false ∧
      InBounds f.1 f.2 ∧ InBounds t.1 t.2 ∧ ¬(f = t) ∧
      piece.color = b.currentTurn ∧ t ∈ piece.GetValidMoves b.squares ∧
      piece.pos = f ∧
      IsInCheckSq (applyBoard b.squares f t piece) b.currentTurn = false ∧
      (applyBoard b.squares f t piece).length = 64 ∧
      (∀ x y q, getSq (applyBoard b.squares f t piece) x y = some q → q.pos = (x, y)) ∧
      b.MovePiece f t = Board.MovePieceCommit { b with
        squares := applyBoard b.squares f t piece,
        currentTurn := flipColor b.currentTurn,
        history :=
          { fromSq := f, toSq := t, movedPiece := piece,
            capturedPiece := getSq b.squares t.1 t.2, wasMoved := piece.hasMoved,
            promotionOccurred := Piece.IsPromotion { piece with pos := t, hasMoved := true },
            previousTurn := b.currentTurn } :: b.history } := by
  obtain ⟨piece, hgo, hf, ht, hp, hcol, hmem, hchk, heq⟩ := movePiece_commit_cases b f t h
  have hlen := wfSquaresB_length (wfBoardB_squares hwf)
  have hpos := wfSquaresB_pos (wfBoardB_squares hwf)
  have hppos : piece.pos = f := hpos f.1 f.2 piece hp
  have hft : ¬(f = t) := by
    intro hEq
    apply (mem_getValidMoves hmem).2
    rw [hppos]
    exact hEq.symm
  refine ⟨piece, hp, hgo, hf, ht, hft, hcol, hmem, hppos, hchk, ?_, ?_, heq⟩
  · rw [length_applyBoard]
    exact hlen
  · exact applyBoard_pos b.squares f t piece hlen hpos hf ht hft

/-- C5: after a Success, Check or Checkmate result of MovePiece, currentTurn
is the opposite color of its pre-call value; after Invalid it is unchanged. -/
theorem movePiece_turn_alternation (b : Board) (f t : Int × Int) :
    ((b.MovePiece f t).1 = MoveResult.Invalid →
      (b.MovePiece f t).2.currentTurn = b.currentTurn) ∧
    (((b.MovePiece f t).1 = MoveResult.Success ∨ (b.MovePiece f t).1 = MoveResult.Check ∨
        (b.MovePiece f t).1 = MoveResult.Checkmate) →
      ((b.currentTurn = PieceColor.white → (b.MovePiece f t).2.currentTurn = PieceColor.black) ∧
       (b.currentTurn = PieceColor.black → (b.MovePiece f t).2.currentTurn = PieceColor.white))) := by
  obtain ⟨h1, h2⟩ := movePiece_turn b f t
  refine ⟨h1, fun hr => ?_⟩
  have hne : (b.MovePiece f t).1 ≠ MoveResult.Invalid := by
    rcases hr with h' | h' | h' <;> rw [h'] <;> intro hc <;> cases hc
  have hflip := h2 hne
  constructor <;> intro hc <;> rw [hflip, hc] <;> rfl

/-- C10: when MovePiece returns Stalemate, currentTurn after the call is the
opposite of its pre-call value (the flip of line 502 is never undone). -/
theorem movePiece_stalemate_turn (b : Board) (f t : Int × Int)
    (h : (b.MovePiece f t).1 = MoveResult.Stalemate) :
    (b.currentTurn = PieceColor.white → (b.MovePiece f t).2.currentTurn = PieceColor.black) ∧
    (b.currentTurn = PieceColor.black → (b.MovePiece f t).2.currentTurn = PieceColor.white) := by
  have hne : (b.MovePiece f t).1 ≠ MoveResult.Invalid := by
    rw [h]
    intro hc
    cases hc
  have hflip := (movePiece_turn b f t).2 hne
  constructor <;> intro hc <;> rw [hflip, hc] <;> rfl

/-- C3: a committing MovePiece call never leaves the mover in check: after
the call, IsInCheck of the pre-call side to move is false on the final
grid. -/
theorem movePiece_no_self_check (b : Board) (f t : Int × Int)
    (hwf : WFBoardB b = true) (h : (b.MovePiece f t).1 ≠ MoveResult.Invalid) :
    IsInCheckSq (b.MovePiece f t).2.squares b.currentTurn = false := by
  obtain ⟨piece, hp, hgo, hf, ht, hft, hcol, hmem, hppos, hchk, hlen3, hpos3, heq⟩ :=
    movePiece_commit_strong b f t hwf h
  rw [heq, movePieceCommit_spec _ hlen3 hpos3]
  split_ifs <;> exact hchk

/-- C9: when no king of the color stands on the board, FindKing yields the
sentinel (-1, -1) and IsInCheck returns false without scanning attacks. -/
theorem isInCheck_no_king_false (sq : Squares) (c : PieceColor)
    (h : kingAbsent sq c = true) :
    findKingSq sq c = (-1, -1) ∧ IsInCheckSq sq c = false := by
  have hfind : allCoords.find? (fun xy =>
      match getSq sq xy.1 xy.2 with
      | some p => decide (p.type = PieceType.king) && decide (p.color = c)
      | none => false) = none := by
    rw [List.find?_eq_none]
    intro xy hxy
    unfold kingAbsent at h
    rw [List.all_eq_true] at h
    have h2 := h xy hxy
    simp only [] at h2
    cases hg : getSq sq xy.1 xy.2 with
    | none =>
      simp
    | some p =>
      rw [hg] at h2
      simp only [] at h2
      rw [Bool.not_eq_true'] at h2
      simp only []
      rw [h2]
      simp
  have hkp : findKingSq sq c = (-1, -1) := by
    unfold findKingSq
    rw [hfind]
  refine ⟨hkp, ?_⟩
  unfold IsInCheckSq
  rw [hkp]
  simp

/-- C6: HasLegalMoves hands back the board exactly as it was (every square,
and all scalar fields), and returns true exactly when some piece of the color
has a pseudo-legal move whose simulated application leaves that color not in
check. -/
theorem hasLegalMoves_frame_correct (b : Board) (c : PieceColor)
    (hwf : WFBoardB b = true) :
    (b.HasLegalMoves c).2 = b ∧
    ((b.HasLegalMoves c).1 = true ↔
      ∃ x y p, getSq b.squares x y = some p ∧ p.color = c ∧
        ∃ m ∈ p.GetValidMoves b.squares,
          IsInCheckSq (simMove b.squares x y p m) c = false) := by
  have hlen := wfSquaresB_length (wfBoardB_squares hwf)
  have hpos := wfSquaresB_pos (wfBoardB_squares hwf)
  refine ⟨hasLegalMoves_snd b c hlen hpos, ?_⟩
  rw [hasLegalMoves_fst b c hlen hpos]
  rw [List.any_eq_true]
  constructor
  · rintro ⟨xy, hxy, hpred⟩
    cases hg : getSq b.squares xy.1 xy.2 with
    | none =>
      rw [hg] at hpred
      simp only [] at hpred
      cases hpred
    | some p =>
      rw [hg] at hpred
      simp only [] at hpred
      rw [Bool.and_eq_true] at hpred
      obtain ⟨hc, hany⟩ := hpred
      rw [List.any_eq_true] at hany
      obtain ⟨m, hm, hcheck⟩ := hany
      rw [Bool.not_eq_true'] at hcheck
      exact ⟨xy.1, xy.2, p, hg, of_decide_eq_true hc, m, hm, hcheck⟩
  · rintro ⟨x, y, p, hg, hc, m, hm, hcheck⟩
    refine ⟨(x, y), mem_allCoords.mpr (inBounds_of_getSq_some hg), ?_⟩
    simp only []
    rw [hg]
    simp only []
    rw [Bool.and_eq_true]
    refine ⟨decide_eq_true hc, ?_⟩
    rw [List.any_eq_true]
    refine ⟨m, hm, ?_⟩
    rw [hcheck]
    rfl

theorem hasLegalMoves_fst_congr (b b' : Board) (c : PieceColor)
    (hsq : b.squares = b'.squares) :
    (b.HasLegalMoves c).1 = (b'.HasLegalMoves c).1 := by
  unfold Board.HasLegalMoves
  rw [hsq]

/-- Outputs of the classification tail over an arbitrary consistent board:
frame facts and the four-way result characterization. -/
theorem movePieceCommit_out (B : Board)
    (hlen : B.squares.length = 64)
    (hpos : ∀ x y q, getSq B.squares x y = some q → q.pos = (x, y)) :
    (Board.MovePieceCommit B).2.squares = B.squares ∧
    (Board.MovePieceCommit B).2.currentTurn = B.currentTurn ∧
    ((Board.MovePieceCommit B).1 = MoveResult.Checkmate ↔
      IsInCheckSq B.squares B.currentTurn = true ∧ (B.HasLegalMoves B.currentTurn).1 = false) ∧
    ((Board.MovePieceCommit B).1 = MoveResult.Checkmate →
      (Board.MovePieceCommit B).2.gameOver = true ∧
      (Board.MovePieceCommit B).2.winner = flipColor B.currentTurn) ∧
    ((Board.MovePieceCommit B).1 = MoveResult.Stalemate ↔
      IsInCheckSq B.squares B.currentTurn = false ∧ (B.HasLegalMoves B.currentTurn).1 = false) ∧
    ((Board.MovePieceCommit B).1 = MoveResult.Stalemate →
      (Board.MovePieceCommit B).2.gameOver = true ∧
      (Board.MovePieceCommit B).2.winner = PieceColor.none) ∧
    ((Board.MovePieceCommit B).1 = MoveResult.Check ↔
      IsInCheckSq B.squares B.currentTurn = true ∧ (B.HasLegalMoves B.currentTurn).1 = true) ∧
    ((Board.MovePieceCommit B).1 = MoveResult.Success ↔
      IsInCheckSq B.squares B.currentTurn = false ∧ (B.HasLegalMoves B.currentTurn).1 = true) := by
  rw [movePieceCommit_spec B hlen hpos]
  cases hic : IsInCheckSq B.squares B.currentTurn <;>
    cases hhm : (B.HasLegalMoves B.currentTurn).1 <;>
      simp [hic, hhm]

/-- C4: for every committed MovePiece call, the result classifies the new
side to move on the final board: Checkmate (game over, winner is the mover)
when in check with no legal moves, Stalemate (game over, no winner) when not
in check with no legal moves, Check when in check with moves, Success
otherwise. -/
theorem movePiece_classification (b : Board) (f t : Int × Int)
    (hwf : WFBoardB b = true) (h : (b.MovePiece f t).1 ≠ MoveResult.Invalid) :
    ((b.MovePiece f t).1 = MoveResult.Checkmate ↔
      IsInCheckSq (b.MovePiece f t).2.squares (b.MovePiece f t).2.currentTurn = true ∧
      ((b.MovePiece f t).2.HasLegalMoves (b.MovePiece f t).2.currentTurn).1 = false) ∧
    ((b.MovePiece f t).1 = MoveResult.Checkmate →
      (b.MovePiece f t).2.gameOver = true ∧ (b.MovePiece f t).2.winner = b.currentTurn) ∧
    ((b.MovePiece f t).1 = MoveResult.Stalemate ↔
      IsInCheckSq (b.MovePiece f t).2.squares (b.MovePiece f t).2.currentTurn = false ∧
      ((b.MovePiece f t).2.HasLegalMoves (b.MovePiece f t).2.currentTurn).1 = false) ∧
    ((b.MovePiece f t).1 = MoveResult.Stalemate →
      (b.MovePiece f t).2.gameOver = true ∧ (b.MovePiece f t).2.winner = PieceColor.none) ∧
    ((b.MovePiece f t).1 = MoveResult.Check ↔
      IsInCheckSq (b.MovePiece f t).2.squares (b.MovePiece f t).2.currentTurn = true ∧
      ((b.MovePiece f t).2.HasLegalMoves (b.MovePiece f t).2.currentTurn).1 = true) ∧
    ((b.MovePiece f t).1 = MoveResult.Success ↔
      IsInCheckSq (b.MovePiece f t).2.squares (b.MovePiece f t).2.currentTurn = false ∧
      ((b.MovePiece f t).2.HasLegalMoves (b.MovePiece f t).2.currentTurn).1 = true) := by
  obtain ⟨piece, hp, hgo, hf, ht, hft, hcol, hmem, hppos, hchk, hlen3, hpos3, heq⟩ :=
    movePiece_commit_strong b f t hwf h
  obtain ⟨R, hR, hRsq, hRct⟩ :
      ∃ R, b.MovePiece f t = Board.MovePieceCommit R ∧
        R.squares = applyBoard b.squares f t piece ∧
        R.currentTurn = flipColor b.currentTurn := ⟨_, heq, rfl, rfl⟩
  have hlenR : R.squares.length = 64 := by rw [hRsq]; exact hlen3
  have hposR : ∀ x y q, getSq R.squares x y = some q → q.pos = (x, y) := by
    rw [hRsq]; exact hpos3
  obtain ⟨hsq, hct, h1, h2, h3, h4, h5, h6⟩ := movePieceCommit_out R hlenR hposR
  have hhlm : ((Board.MovePieceCommit R).2.HasLegalMoves R.currentTurn).1 =
      (R.HasLegalMoves R.currentTurn).1 :=
    hasLegalMoves_fst_congr _ _ _ hsq
  have hff : flipColor (flipColor b.currentTurn) = b.currentTurn := by
    rcases wfBoardB_turn hwf with h' | h' <;> rw [h'] <;> rfl
  rw [hR, hsq, hct, hhlm]
  refine ⟨h1, fun hcm => ⟨(h2 hcm).1, ?_⟩, h3, h4, h5, h6⟩
  rw [(h2 hcm).2, hRct, hff]

/-- C2: a committed MovePiece call followed immediately by UndoLastMove
returns true and restores the full pre-move board state (grid, turn,
game-over flag, winner and history). -/
theorem movePiece_undo_inverse (b : Board) (f t : Int × Int)
    (hwf : WFBoardB b = true) (h : (b.MovePiece f t).1 ≠ MoveResult.Invalid) :
    ((b.MovePiece f t).2.UndoLastMove).1 = true ∧
    ((b.MovePiece f t).2.UndoLastMove).2 = b := by
  obtain ⟨piece, hp, hgo, hf, ht, hft, hcol, hmem, hppos, hchk, hlen3, hpos3, heq⟩ :=
    movePiece_commit_strong b f t hwf h
  have hlen := wfSquaresB_length (wfBoardB_squares hwf)
  have hpos := wfSquaresB_pos (wfBoardB_squares hwf)
  have hwin := wfBoardB_winner hwf hgo
  have hpc : ({ piece with pos := f, hasMoved := piece.hasMoved } : Piece) = piece := by
    obtain ⟨pt, pc, pp, ph⟩ := piece
    simp only [] at hppos ⊢
    rw [hppos]
  have hcap : ((getSq b.squares t.1 t.2).map fun q => ({ q with pos := t } : Piece)) =
      getSq b.squares t.1 t.2 := by
    cases hg : getSq b.squares t.1 t.2 with
    | none => rfl
    | some q =>
      show some ({ q with pos := t } : Piece) = some q
      have hqp : q.pos = t := hpos t.1 t.2 q hg
      obtain ⟨qt, qc, qp, qh⟩ := q
      simp only [] at hqp ⊢
      rw [hqp]
  have hundo : ∀ b' : Board, b'.squares = applyBoard b.squares f t piece →
      b'.history =
        ({ fromSq := f, toSq := t, movedPiece := piece,
           capturedPiece := getSq b.squares t.1 t.2, wasMoved := piece.hasMoved,
           promotionOccurred := Piece.IsPromotion { piece with pos := t, hasMoved := true },
           previousTurn := b.currentTurn } : MoveCommand) :: b.history →
      b'.UndoLastMove = (true, b) := by
    intro b' hsq hhist
    unfold Board.UndoLastMove
    rw [hhist]
    simp only []
    unfold MoveCommand.undoApply
    simp only []
    rw [hsq, hpc, hcap]
    obtain ⟨Y, hY⟩ := applyBoard_as_sets b.squares f t piece hlen hf ht hft
    rw [hY]
    rw [setSq_setSq_self]
    rw [setSq_comm b.squares Y (some piece) ht hf (fun hEq => hft hEq.symm)]
    rw [setSq_setSq_self]
    rw [← hp, setSq_getSq_self b.squares hf hlen]
    rw [setSq_getSq_self b.squares ht hlen]
    rw [show b = Board.mk b.squares b.currentTurn b.gameOver b.winner b.history from rfl,
      hgo, hwin]
  have hsq2 : (b.MovePiece f t).2.squares = applyBoard b.squares f t piece := by
    rw [heq]
    exact (movePieceCommit_out _ hlen3 hpos3).1
  have hhist2 : (b.MovePiece f t).2.history =
      ({ fromSq := f, toSq := t, movedPiece := piece,
         capturedPiece := getSq b.squares t.1 t.2, wasMoved := piece.hasMoved,
         promotionOccurred := Piece.IsPromotion { piece with pos := t, hasMoved := true },
         previousTurn := b.currentTurn } : MoveCommand) :: b.history := by
    rw [heq]
    exact (movePieceCommit_snd_turn_history _).2
  have hu := hundo ((b.MovePiece f t).2) hsq2 hhist2
  exact ⟨by rw [hu], by rw [hu]⟩

/-- C7: the valid moves of a pawn standing on the board are exactly the
single forward step onto an empty square, the double step from the start row
over two empty squares, and the diagonal captures of pieces of the other
color, with d the forward direction and sr the start row of its color. -/
theorem pawn_valid_moves_spec (sq : Squares) (p : Piece) (x y d sr : Int) (m : Int × Int)
    (hty : p.type = PieceType.pawn)
    (hon : getSq sq x y = some p) (hx : p.pos = (x, y))
    (hd : d = (if p.color = PieceColor.white then -1 else 1))
    (hsr : sr = (if p.color = PieceColor.white then 6 else 1)) :
    m ∈ p.GetValidMoves sq ↔
      ((m = (x, y + d) ∧ InBounds x (y + d) ∧ getSq sq x (y + d) = none) ∨
       (m = (x, y + 2 * d) ∧ y = sr ∧ getSq sq x (y + d) = none ∧
         getSq sq x (y + 2 * d) = none) ∨
       (∃ dx : Int, (dx = -1 ∨ dx = 1) ∧ m = (x + dx, y + d) ∧ InBounds (x + dx) (y + d) ∧
         ∃ q : Piece, getSq sq (x + dx) (y + d) = some q ∧ q.color ≠ p.color)) := by
  have hb : InBounds x y := inBounds_of_getSq_some hon
  have hdsr : (d = -1 ∧ sr = 6) ∨ (d = 1 ∧ sr = 1) := by
    by_cases hpc : p.color = PieceColor.white
    · left
      rw [hd, hsr, if_pos hpc, if_pos hpc]
      exact ⟨rfl, rfl⟩
    · right
      rw [hd, hsr, if_neg hpc, if_neg hpc]
      exact ⟨rfl, rfl⟩
  unfold Piece.GetValidMoves
  rw [hty]
  simp only []
  unfold pawnMoves
  rw [hx]
  simp only []
  rw [← hd, ← hsr]
  constructor
  · intro h
    rcases List.mem_append.mp h with h1 | h2
    · by_cases hf : InBounds x (y + d) ∧ getSq sq x (y + d) = none
      · rw [if_pos hf] at h1
        rcases List.mem_cons.mp h1 with hm | hm
        · exact Or.inl ⟨hm, hf.1, hf.2⟩
        · by_cases hdb : y = sr ∧ InBounds x (y + 2 * d) ∧ getSq sq x (y + 2 * d) = none
          · rw [if_pos hdb] at hm
            exact Or.inr (Or.inl ⟨List.mem_singleton.mp hm, hdb.1, hf.2, hdb.2.2⟩)
          · rw [if_neg hdb] at hm
            cases hm
      · rw [if_neg hf] at h1
        cases h1
    · obtain ⟨dx, hdx, hfo⟩ := List.mem_filterMap.mp h2
      have hdx2 : dx = -1 ∨ dx = 1 := by
        rcases List.mem_cons.mp hdx with h' | h'
        · exact Or.inl h'
        · exact Or.inr (List.mem_singleton.mp h')
      by_cases hbb : InBounds (x + dx) (y + d)
      · rw [if_pos hbb] at hfo
        cases hg : getSq sq (x + dx) (y + d) with
        | none =>
          rw [hg] at hfo
          simp only [] at hfo
          cases hfo
        | some q =>
          rw [hg] at hfo
          simp only [] at hfo
          by_cases hqc : q.color ≠ p.color
          · rw [if_pos hqc] at hfo
            exact Or.inr (Or.inr ⟨dx, hdx2, (Option.some.inj hfo).symm, hbb, q, hg, hqc⟩)
          · rw [if_neg hqc] at hfo
            cases hfo
      · rw [if_neg hbb] at hfo
        cases hfo
  · intro h
    rcases h with ⟨hm, hbf, hge⟩ | ⟨hm, hysr, hge1, hge2⟩ | ⟨dx, hdx2, hm, hbb, q, hg, hqc⟩
    · apply List.mem_append.mpr
      left
      rw [if_pos ⟨hbf, hge⟩]
      exact List.mem_cons.mpr (Or.inl hm)
    · have hfb : InBounds x (y + d) := by
        unfold InBounds at hb ⊢
        rcases hdsr with ⟨h1, h2⟩ | ⟨h1, h2⟩ <;> omega
      have hdbb : InBounds x (y + 2 * d) := by
        unfold InBounds at hb ⊢
        rcases hdsr with ⟨h1, h2⟩ | ⟨h1, h2⟩ <;> omega
      apply List.mem_append.mpr
      left
      rw [if_pos ⟨hfb, hge1⟩]
      apply List.mem_cons.mpr
      right
      rw [if_pos ⟨hysr, hdbb, hge2⟩]
      exact List.mem_singleton.mpr hm
    · apply List.mem_append.mpr
      right
      apply List.mem_filterMap.mpr
      refine ⟨dx, ?_, ?_⟩
      · rcases hdx2 with h' | h' <;> rw [h'] <;> simp
      · rw [if_pos hbb, hg]
        simp only []
        rw [if_pos hqc]
        exact congrArg some hm.symm

/-- C8: a committed MovePiece call moving a White pawn to rank 0 or a Black
pawn to rank 7 leaves on the destination square a freshly constructed Queen
of the same color with hasMoved false. -/
theorem movePiece_promotion_queen (b : Board) (f t : Int × Int) (piece : Piece)
    (hwf : WFBoardB b = true)
    (hp : getSq b.squares f.1 f.2 = some piece)
    (hty : piece.type = PieceType.pawn)
    (hpr : (piece.color = PieceColor.white ∧ t.2 = 0) ∨
           (piece.color = PieceColor.black ∧ t.2 = 7))
    (h : (b.MovePiece f t).1 ≠ MoveResult.Invalid) :
    getSq (b.MovePiece f t).2.squares t.1 t.2 =
      some { type := PieceType.queen, color := piece.color, pos := t, hasMoved := false } := by
  obtain ⟨piece2, hp2, hgo, hf, ht, hft, hcol, hmem, hppos, hchk, hlen3, hpos3, heq⟩ :=
    movePiece_commit_strong b f t hwf h
  have hpp : piece2 = piece := by
    rw [hp] at hp2
    exact (Option.some.inj hp2).symm
  subst hpp
  have hpromo : Piece.IsPromotion ({ piece2 with pos := t, hasMoved := true } : Piece) = true := by
    unfold Piece.IsPromotion
    simp only []
    rw [hty]
    simp only []
    rw [Bool.or_eq_true]
    rcases hpr with ⟨h1, h2⟩ | ⟨h1, h2⟩
    · left
      exact decide_eq_true ⟨h1, h2⟩
    · right
      exact decide_eq_true ⟨h1, h2⟩
  have hlen := wfSquaresB_length (wfBoardB_squares hwf)
  obtain ⟨hother, hfrom, hto⟩ := getSq_applyBoard b.squares f t piece2 hlen hf ht hft
  have hsq2 : (b.MovePiece f t).2.squares = applyBoard b.squares f t piece2 := by
    rw [heq]
    exact (movePieceCommit_out _ hlen3 hpos3).1
  rw [hsq2, hto, if_pos hpromo]
  rfl

/-- C1 fails on the code: on the illegal-after-the-fact revert path the board
is not restored to its pre-call state.  On c1Board the reverted rook keeps
hasMoved = true; on c1BoardPromo the promotion swap is not undone, leaving a
Queen where the pawn stood. -/
theorem movePiece_selfcheck_revert_bug :
    (c1Board.MovePiece (4, 6) (0, 6)).1 = MoveResult.Invalid ∧
    getSq c1Board.squares 4 6 =
      some { type := PieceType.rook, color := PieceColor.white, pos := (4, 6), hasMoved := false } ∧
    getSq (c1Board.MovePiece (4, 6) (0, 6)).2.squares 4 6 =
      some { type := PieceType.rook, color := PieceColor.white, pos := (4, 6), hasMoved := true } ∧
    (c1BoardPromo.MovePiece (4, 1) (3, 0)).1 = MoveResult.Invalid ∧
    getSq c1BoardPromo.squares 4 1 =
      some { type := PieceType.pawn, color := PieceColor.white, pos := (4, 1), hasMoved := false } ∧
    getSq (c1BoardPromo.MovePiece (4, 1) (3, 0)).2.squares 4 1 =
      some { type := PieceType.queen, color := PieceColor.white, pos := (4, 1), hasMoved := false } := by
  decide

theorem movePiece_undo_inverse_witness :
    ((witBoardA.MovePiece (0, 7) (0, 5)).2.UndoLastMove).1 = true ∧
    ((witBoardA.MovePiece (0, 7) (0, 5)).2.UndoLastMove).2 = witBoardA :=
  movePiece_undo_inverse witBoardA (0, 7) (0, 5) (by decide) (by decide)

theorem movePiece_no_self_check_witness :
    IsInCheckSq (witBoardA.MovePiece (0, 7) (0, 5)).2.squares witBoardA.currentTurn = false :=
  movePiece_no_self_check witBoardA (0, 7) (0, 5) (by decide) (by decide)

theorem movePiece_classification_witness :
    ((witBoardA.MovePiece (0, 7) (0, 5)).1 = MoveResult.Checkmate ↔
      IsInCheckSq (witBoardA.MovePiece (0, 7) (0, 5)).2.squares
        (witBoardA.MovePiece (0, 7) (0, 5)).2.currentTurn = true ∧
      ((witBoardA.MovePiece (0, 7) (0, 5)).2.HasLegalMoves
        (witBoardA.MovePiece (0, 7) (0, 5)).2.currentTurn).1 = false) ∧
    ((witBoardA.MovePiece (0, 7) (0, 5)).1 = MoveResult.Checkmate →
      (witBoardA.MovePiece (0, 7) (0, 5)).2.gameOver = true ∧
      (witBoardA.MovePiece (0, 7) (0, 5)).2.winner = witBoardA.currentTurn) ∧
    ((witBoardA.MovePiece (0, 7) (0, 5)).1 = MoveResult.Stalemate ↔
      IsInCheckSq (witBoardA.MovePiece (0, 7) (0, 5)).2.squares
        (witBoardA.MovePiece (0, 7) (0, 5)).2.currentTurn = false ∧
      ((witBoardA.MovePiece (0, 7) (0, 5)).2.HasLegalMoves
        (witBoardA.MovePiece (0, 7) (0, 5)).2.currentTurn).1 = false) ∧
    ((witBoardA.MovePiece (0, 7) (0, 5)).1 = MoveResult.Stalemate →
      (witBoardA.MovePiece (0, 7) (0, 5)).2.gameOver = true ∧
      (witBoardA.MovePiece (0, 7) (0, 5)).2.winner = PieceColor.none) ∧
    ((witBoardA.MovePiece (0, 7) (0, 5)).1 = MoveResult.Check ↔
      IsInCheckSq (witBoardA.MovePiece (0, 7) (0, 5)).2.squares
        (witBoardA.MovePiece (0, 7) (0, 5)).2.currentTurn = true ∧
      ((witBoardA.MovePiece (0, 7) (0, 5)).2.HasLegalMoves
        (witBoardA.MovePiece (0, 7) (0, 5)).2.currentTurn).1 = true) ∧
    ((witBoardA.MovePiece (0, 7) (0, 5)).1 = MoveResult.Success ↔
      IsInCheckSq (witBoardA.MovePiece (0, 7) (0, 5)).2.squares
        (witBoardA.MovePiece (0, 7) (0, 5)).2.currentTurn = false ∧
      ((witBoardA.MovePiece (0, 7) (0, 5)).2.HasLegalMoves
        (witBoardA.MovePiece (0, 7) (0, 5)).2.currentTurn).1 = true) :=
  movePiece_classification witBoardA (0, 7) (0, 5) (by decide) (by decide)

theorem movePiece_turn_alternation_witness :
    (witBoardA.MovePiece (0, 7) (0, 5)).2.currentTurn = PieceColor.black :=
  ((movePiece_turn_alternation witBoardA (0, 7) (0, 5)).2 (Or.inl (by decide))).1 (by decide)

theorem hasLegalMoves_frame_correct_witness :
    (witBoardA.HasLegalMoves PieceColor.white).2 = witBoardA ∧
    ((witBoardA.HasLegalMoves PieceColor.white).1 = true ↔
      ∃ x y p, getSq witBoardA.squares x y = some p ∧ p.color = PieceColor.white ∧
        ∃ m ∈ p.GetValidMoves witBoardA.squares,
          IsInCheckSq (simMove witBoardA.squares x y p m) PieceColor.white = false) :=
  hasLegalMoves_frame_correct witBoardA PieceColor.white (by decide)

theorem pawn_valid_moves_spec_witness :
    (3, 5) ∈ c7Pawn.GetValidMoves c7Sq ↔
      (((3, 5) : Int × Int) = (4, 6 + (-1)) ∧ InBounds 4 (6 + (-1)) ∧
        getSq c7Sq 4 (6 + (-1)) = none) ∨
      (((3, 5) : Int × Int) = (4, 6 + 2 * (-1)) ∧ (6 : Int) = 6 ∧
        getSq c7Sq 4 (6 + (-1)) = none ∧ getSq c7Sq 4 (6 + 2 * (-1)) = none) ∨
      (∃ dx : Int, (dx = -1 ∨ dx = 1) ∧ ((3, 5) : Int × Int) = (4 + dx, 6 + (-1)) ∧
        InBounds (4 + dx) (6 + (-1)) ∧
        ∃ q : Piece, getSq c7Sq (4 + dx) (6 + (-1)) = some q ∧ q.color ≠ c7Pawn.color) :=
  pawn_valid_moves_spec c7Sq c7Pawn 4 6 (-1) 6 (3, 5) (by decide) (by decide) (by decide)
    (by decide) (by decide)

theorem movePiece_promotion_queen_witness :
    getSq (c8Board.MovePiece (0, 1) (0, 0)).2.squares 0 0 =
      some { type := PieceType.queen, color := c8Pawn.color, pos := (0, 0), hasMoved := false } :=
  movePiece_promotion_queen c8Board (0, 1) (0, 0) c8Pawn (by decide) (by decide) (by decide)
    (by decide) (by decide)

theorem isInCheck_no_king_false_witness :
    findKingSq emptySquares PieceColor.white = (-1, -1) ∧
    IsInCheckSq emptySquares PieceColor.white = false :=
  isInCheck_no_king_false emptySquares PieceColor.white (by decide)

theorem movePiece_stalemate_turn_witness :
    (c10Board.MovePiece (1, 5) (1, 2)).2.currentTurn = PieceColor.black :=
  (movePiece_stalemate_turn c10Board (1, 5) (1, 2) (by decide)).1 (by decide)

end Chess
